import Mathlib

/-!
Verification of the espurna terminal module (`code/espurna/terminal.cpp`).

The module is embedded shallowly: Arduino `String` / C character buffers
become `List Char`, the single global DNS task slot becomes an `Option`
field of an explicit state record, the external resolver's return code is
passed in as a parameter, and each transport adapter's handler becomes a
function from its inputs to the string it hands to the dispatcher or to
the list of events it emits.  Components of the module that are declared
in other files of the repository (the `LineBuffer` class, the
`ok`/`error` status helpers, `terminal::names`) are modelled from the
specification and marked as such in their doc comments.
-/

namespace Terminal

/-- Strings of the embedding: Arduino `String` and C character buffers are
modelled as lists of characters. -/
abbrev Str := List Char

/-- Events a command writes to its context output.  `ok` and `err` are the
two terminal status markers; `text` is ordinary printed output;
`hostNotFound`/`hostAddress` are the two printf lines of the HOST
command's callback (their exact rendering goes through external
`IPAddress::toString`, so they are kept structured). -/
inductive OutEvent where
  | text (s : Str)
  | ok
  | err (msg : Str)
  | hostNotFound (name : Str)
  | hostAddress (name : Str) (addr : Nat)
deriving DecidableEq

-- -----------------------------------------------------------------------------
-- Message transport adapters (lines 512-552, 554-596, 602-686)
-- -----------------------------------------------------------------------------

/-- The line terminator. -/
def newline : Str := ['\n']

/-- The two-character CRLF terminator. -/
def crlf : Str := ['\r', '\n']

/-- Arduino `String::endsWith`. -/
def endsWith (s suffix : Str) : Bool := decide (suffix <:+ s)

/-- The shared snippet
`if (!cmd.endsWith("\r\n") && !cmd.endsWith("\n")) cmd += '\n';`
of `mqtt::setup` (lines 528-530) and `api::setup` (lines 632-634 and
671-673). -/
def withTerminator (cmd : Str) : Str :=
  if !endsWith cmd crlf && !endsWith cmd newline then cmd ++ newline else cmd

/-- `mqtt::setup` message handler (lines 522-545): an empty payload is
ignored, otherwise the payload, with a line terminator ensured, is the
string handed to `api_find_and_call`. -/
def mqttPrepare (payload : Str) : Option Str :=
  if payload.length = 0 then none
  else some (withTerminator payload)

/-- `web::onAction` (lines 561-587): an empty `line` value is ignored,
otherwise the command string is handed to `api_find_and_call` unchanged
(this handler has no terminator-appending snippet). -/
def webPrepare (cmd : Str) : Option Str :=
  if cmd.length = 0 then none
  else some cmd

/-- `api::setup` HTTP handler (lines 624-644, and the `webRequestRegister`
variant, lines 647-681): an empty `line` parameter is rejected, otherwise
the command, with a line terminator ensured, is handed to
`api_find_and_call`. -/
def apiPrepare (cmd : Str) : Option Str :=
  if cmd.length = 0 then none
  else some (withTerminator cmd)

/-- Modelled from the spec: the reply topic `mqttTopic(MQTT_TOPIC_CMD)`
(line 539) is built by the external mqtt module; it is kept as an opaque
constant. -/
def cmdTopic : Str := "cmd".toList

/-- The scheduled command execution of `mqtt::setup` (lines 527-543): a
non-empty payload gets a line terminator ensured, runs through the
dispatcher (`api_find_and_call`, external to this file, passed as the
`dispatch` parameter) into a bounded string sink, and the sink's final
contents are published to the command topic only when they are non-empty
(`if (out.length())`, line 540). -/
def mqttHandle (payload : Str) (dispatch : Str → Str) : Option (Str × Str) :=
  if payload.length = 0 then none
  else
    let out := dispatch (withTerminator payload)
    if out.length = 0 then none else some (cmdTopic, out)

/-- `commands::netstat` (lines 89-106): writes one line per TCP pcb taken
from the three lwIP pcb lists (their formatting is external; the rendered
lines are the parameter) and returns without writing any OK or ERROR
status.  With all three lists empty it writes nothing at all. -/
def netstatOutput (pcbLines : List Str) : Str := pcbLines.flatten

-- -----------------------------------------------------------------------------
-- Single-slot async DNS task (lines 108-179) and the HOST command (181-201)
-- -----------------------------------------------------------------------------

/-- Return of the external lwIP `dns_gethostbyname` call (line 163):
`ERR_OK` with the resolved address written through the out-pointer,
`ERR_INPROGRESS`, or any other error code (for which the `switch` of
lines 167-176 has no case). -/
inductive DnsResult where
  | ok (addr : Nat)
  | inProgress
  | other
deriving DecidableEq

/-- `dns::internal::Task` (lines 114-141): the stored hostname and the
stored caller callback.  Callbacks are identified by a caller-chosen
number; an invocation of callback `cb` is recorded in the state's log. -/
structure Task where
  hostname : Str
  callbackId : Nat
deriving DecidableEq

/-- One recorded invocation of a caller-supplied `FoundCallback`:
which callback fired, the name it was given and the address
(`none` models a null `ip_addr_t*`). -/
structure Invocation where
  callbackId : Nat
  name : Str
  addr : Option Nat
deriving DecidableEq

/-- The observable state of the dns namespace: the single global slot
`dns::internal::task` (line 144) plus the log of every caller-callback
invocation performed so far. -/
structure DnsState where
  task : Option Task
  invoked : List Invocation
deriving DecidableEq

/-- `dns::started` (lines 155-157). -/
def started (s : DnsState) : Bool := s.task.isSome

/-- `dns::internal::found_callback` (lines 146-151): if the slot holds a
task, forward the resolver's result to its stored callback and clear the
slot; otherwise do nothing. -/
def found_callback (s : DnsState) (name : Str) (addr : Option Nat) : DnsState :=
  match s.task with
  | some t => { task := none, invoked := s.invoked ++ [⟨t.callbackId, name, addr⟩] }
  | none => s

/-- `dns::start` (lines 159-177): build a task, call the resolver; on
`ERR_OK` fire the new task's callback synchronously (the local task is
then destroyed, the global slot is untouched); on `ERR_INPROGRESS` move
the new task into the global slot (overwriting whatever it held); on any
other result the local task is destroyed and nothing else happens. -/
def start (s : DnsState) (hostname : Str) (cb : Nat) (result : DnsResult) : DnsState :=
  match result with
  | DnsResult.ok addr => { s with invoked := s.invoked ++ [⟨cb, hostname, some addr⟩] }
  | DnsResult.inProgress => { s with task := some ⟨hostname, cb⟩ }
  | DnsResult.other => s

/-- One step of the dns slot, parametric in a callback id `cb` that no new
`start` uses (callback identities are fresh per caller): either some
caller starts a resolution with a different callback, or the external
resolver's completion callback fires. -/
inductive DnsStep (cb : Nat) : DnsState → DnsState → Prop where
  | stepStart (s : DnsState) (h : Str) (cb' : Nat) (r : DnsResult) (hne : cb' ≠ cb) :
      DnsStep cb s (start s h cb' r)
  | stepCompletion (s : DnsState) (name : Str) (addr : Option Nat) :
      DnsStep cb s (found_callback s name addr)

/-- Reachability by any number of `DnsStep cb` steps. -/
abbrev ReachAvoiding (cb : Nat) (s s' : DnsState) : Prop :=
  Relation.ReflTransGen (DnsStep cb) s s'

/-- Whether callback `cb` appears in the invocation log. -/
def wasInvoked (cb : Nat) (s : DnsState) : Bool :=
  s.invoked.any (fun i => i.callbackId == cb)

/-- Whether the slot currently stores callback `cb`. -/
def holdsCallback (cb : Nat) (s : DnsState) : Bool :=
  match s.task with
  | some t => t.callbackId == cb
  | none => false

/-- Callback `cb` is never invoked in any future of `s` (in which no new
start reuses `cb`). -/
def neverFires (cb : Nat) (s : DnsState) : Prop :=
  ∀ s', ReachAvoiding cb s s' → wasInvoked cb s' = false

/-- Example state: a resolution of `one.example` with callback 1 has been
started and the resolver answered `ERR_INPROGRESS`, so the task is
pending in the global slot. -/
def pendingOne : DnsState :=
  start ⟨none, []⟩ ("one.example".toList) 1 DnsResult.inProgress

/-- Example state: while `pendingOne` is still pending, a second `start`
for `two.example` with callback 2 also gets `ERR_INPROGRESS`. -/
def pendingTwo : DnsState :=
  start pendingOne ("two.example".toList) 2 DnsResult.inProgress

/-- The usage string of the HOST command (line 183). -/
def hostUsage : Str := "HOST <hostname>".toList

/-- The output line produced by the HOST command's callback
(lines 188-196) when it is handed `reply`. -/
def hostOut (hostname : Str) (reply : Option Nat) : OutEvent :=
  match reply with
  | some a => OutEvent.hostAddress hostname a
  | none => OutEvent.hostNotFound hostname

/-- `commands::host` (lines 181-201) together with `dns::start`.  The
resolver's immediate result and, for the pending case, the
address it eventually delivers are parameters.  The trailing
`while (dns::started()) delay(100);` wait loop exits exactly when the
global slot is empty (spec section 4.4); runs in which the loop would
keep spinning on a foreign pending task, or would wait on an
external completion that is not the one modelled, are `none`. -/
def hostRun (argv : List Str) (s : DnsState) (cb : Nat) (result : DnsResult)
    (reply : Option Nat) : Option (DnsState × List OutEvent) :=
  if argv.length ≠ 2 then some (s, [OutEvent.err hostUsage])
  else
    let hostname := argv.getD 1 []
    match result with
    | DnsResult.ok addr =>
      if s.task = none then
        some (start s hostname cb (DnsResult.ok addr), [OutEvent.hostAddress hostname addr])
      else none
    | DnsResult.inProgress =>
      let s1 := start s hostname cb DnsResult.inProgress
      some (found_callback s1 hostname reply, [hostOut hostname reply])
    | DnsResult.other =>
      if s.task = none then some (s, []) else none

-- -----------------------------------------------------------------------------
-- Help command and its sort comparator (lines 69-87)
-- -----------------------------------------------------------------------------

/-- ASCII `tolower`, as applied by `strncasecmp`. -/
def lowerChar (c : Char) : Char :=
  if 'A' ≤ c ∧ c ≤ 'Z' then Char.ofNat (c.toNat + 32) else c

/-- Lower-case image of a whole name. -/
def lower (s : Str) : Str := s.map lowerChar

/-- C `strncasecmp` on NUL-terminated strings restricted to the first `n`
characters, on the character lists of the two names (which contain no
NUL); only the sign of the result is modelled. -/
def strncasecmp : Str → Str → Nat → Int
  | _, _, 0 => 0
  | [], [], _ + 1 => 0
  | [], _ :: _, _ + 1 => -1
  | _ :: _, [], _ + 1 => 1
  | a :: as, b :: bs, n + 1 =>
    if lowerChar a = lowerChar b then strncasecmp as bs n
    else if lowerChar a < lowerChar b then -1 else 1

/-- The comparator passed to `std::sort` in `commands::help`
(lines 72-79): `strncasecmp_P(lhs, rhs, lhs.length()) < 0`. -/
def helpLt (lhs rhs : Str) : Prop := strncasecmp lhs rhs lhs.length < 0

instance : DecidableRel helpLt :=
  fun a b => inferInstanceAs (Decidable (strncasecmp a b a.length < 0))

/-- The non-strict relation induced by the source comparator: `a` may be
placed before `b` when the comparator does not order `b` strictly before
`a`. -/
def helpLe (a b : Str) : Prop := ¬ helpLt b a

instance : DecidableRel helpLe := fun a b => inferInstanceAs (Decidable (¬ helpLt b a))

/-- `std::sort` of `commands::help` (lines 72-79), modelled as a stable
comparison sort driven by the source comparator. -/
def helpSort (names : List Str) : List Str := List.insertionSort helpLe names

/-- Strict lexicographic order on character lists, by code point. -/
def lexLt : Str → Str → Bool
  | [], [] => false
  | [], _ :: _ => true
  | _ :: _, [] => false
  | a :: as, b :: bs => if a < b then true else if a = b then lexLt as bs else false

/-- Strict case-insensitive lexicographic order on names. -/
def ciLt (a b : Str) : Prop := lexLt (lower a) (lower b) = true

instance : DecidableRel ciLt :=
  fun a b => inferInstanceAs (Decidable (lexLt (lower a) (lower b) = true))

/-- Case-insensitive lexicographic order (non-strict): `b` is not strictly
before `a`. -/
def ciLe (a b : Str) : Prop := ¬ ciLt b a

instance : DecidableRel ciLe := fun a b => inferInstanceAs (Decidable (¬ ciLt b a))

/-- Two names neither of whose lower-case images is a prefix of the
other's; in particular they are not case-insensitively equal. -/
def NoCiContainment (a b : Str) : Prop :=
  ¬ (lower a <+: lower b) ∧ ¬ (lower b <+: lower a)

instance : ∀ a b, Decidable (NoCiContainment a b) :=
  fun a b => inferInstanceAs (Decidable (¬ (lower a <+: lower b) ∧ ¬ (lower b <+: lower a)))

/-- The header line of `commands::help` (line 81). -/
def helpHeader : Str := "Available commands:\n".toList

/-- One name line of `commands::help` (line 83): `"> %s\n"`. -/
def helpLine (n : Str) : OutEvent := OutEvent.text ("> ".toList ++ n ++ "\n".toList)

/-- `commands::help` (lines 69-87): header, one line per sorted name,
then the OK marker.  `terminal::names()` and `terminalOK` live in other
files of the repository; the registry's names are the parameter and the
OK marker is modelled from the spec as the fixed success event. -/
def help (names : List Str) : List OutEvent :=
  OutEvent.text helpHeader :: (helpSort names).map helpLine ++ [OutEvent.ok]

-- -----------------------------------------------------------------------------
-- Line buffer (modelled from the spec) and the serial loop (lines 459-510)
-- -----------------------------------------------------------------------------

/-- Modelled from the spec: the `LineBuffer` class used by `serial::loop`
is declared in `terminal.h`, not in this file; per spec section 4.2 it
has a fixed byte capacity, a line-length bound, pending bytes and a
latched raw-overflow flag. -/
structure LineBuffer where
  capacity : Nat
  lineBound : Nat
  pending : Str
  rawOverflow : Bool
deriving DecidableEq

/-- Modelled from the spec: `append` adds up to capacity-remaining bytes;
offering more sets the raw-overflow flag and discards the remainder, and
once the flag is latched nothing further is buffered until `reset`. -/
def append (b : LineBuffer) (input : Str) : LineBuffer :=
  if b.rawOverflow then b
  else
    let room := b.capacity - b.pending.length
    if input.length ≤ room then { b with pending := b.pending ++ input }
    else { b with pending := b.pending ++ input.take room, rawOverflow := true }

/-- Modelled from the spec: `reset` clears the pending bytes and the
flags but not the capacity. -/
def reset (b : LineBuffer) : LineBuffer :=
  { b with pending := [], rawOverflow := false }

/-- What one `buffer.line()` call reports: the extracted line (empty when
there is none; the source tests `result.line.length()`) and the
line-overflow flag. -/
structure LineResult where
  line : Str
  overflow : Bool
deriving DecidableEq

/-- Position split of a byte sequence at its first `'\n'`: the bytes
before it and the bytes after it, or `none` when it has no terminator. -/
def splitFirstLine (s : Str) : Option (Str × Str) :=
  let i := s.findIdx (fun c => c = '\n')
  if i < s.length then some (s.take i, s.drop (i + 1)) else none

/-- Drop one `'\r'` immediately preceding the terminator. -/
def stripCR (ln : Str) : Str :=
  if ln.getLast? = some '\r' then ln.dropLast else ln

/-- Modelled from the spec: `buffer.line()` (spec section 4.2,
`extract_line`): if the pending bytes contain a terminator, return the
text before it (tolerating a preceding `'\r'`) and consume through the
terminator; otherwise, if the pending length exceeds the line-length
bound, flag overflow and discard the pending content; otherwise report
no line and leave the buffer unchanged. -/
def line (b : LineBuffer) : LineResult × LineBuffer :=
  match splitFirstLine b.pending with
  | some p => (⟨stripCR p.1, false⟩, { b with pending := p.2 })
  | none =>
    if b.lineBound < b.pending.length then (⟨[], true⟩, { b with pending := [] })
    else (⟨[], false⟩, b)

/-- Observable events of one `serial::loop` call: a diagnostic written
with `terminal::error(port, msg)` or a line dispatched with
`find_and_call(line, port)`. -/
inductive SerialEvent where
  | diag (msg : Str)
  | dispatched (ln : Str)
deriving DecidableEq

/-- The raw-capacity diagnostic of `serial::loop` (line 490). -/
def serialOverflowMsg : Str := "Serial buffer overflow".toList

/-- The logical line-length diagnostic of `serial::loop` (line 497). -/
def cmdOverflowMsg : Str := "Command line buffer overflow".toList

/-- The drain loop of `serial::loop` (lines 494-506): repeatedly call
`buffer.line()`; on line overflow emit the diagnostic and continue; on an
empty line stop; otherwise dispatch the line and continue. -/
def drain (b : LineBuffer) : List SerialEvent × LineBuffer :=
  if hov : (line b).1.overflow = true then
    have hd : (line b).2.pending.length < b.pending.length := by
      unfold line at hov ⊢
      cases hsp : splitFirstLine b.pending with
      | some p => simp [hsp] at hov
      | none =>
        simp only [hsp] at hov ⊢
        by_cases hb : b.lineBound < b.pending.length
        · simp only [if_pos hb]
          simp only [List.length_nil]
          omega
        · simp [hb] at hov
    let d := drain (line b).2
    (SerialEvent.diag cmdOverflowMsg :: d.1, d.2)
  else if hln : (line b).1.line = [] then
    ([], (line b).2)
  else
    have hd : (line b).2.pending.length < b.pending.length := by
      unfold line at hov hln ⊢
      cases hsp : splitFirstLine b.pending with
      | some p =>
        simp only [hsp] at hln ⊢
        unfold splitFirstLine at hsp
        by_cases hi : b.pending.findIdx (fun c => c = '\n') < b.pending.length
        · simp only [if_pos hi] at hsp
          cases hsp
          simp only [List.length_drop]
          omega
        · simp [hi] at hsp
      | none =>
        simp only [hsp] at hov hln
        by_cases hb : b.lineBound < b.pending.length
        · simp [hb] at hov
        · simp [hb] at hln
    let d := drain (line b).2
    (SerialEvent.dispatched (line b).1.line :: d.1, d.2)
termination_by b.pending.length

/-- `serial::loop` (lines 462-507): return immediately when no bytes are
available; otherwise append the available bytes, and if the raw-overflow
flag is up report the raw diagnostic and reset the buffer before
draining; then drain. -/
def serialLoop (b : LineBuffer) (input : Str) : List SerialEvent × LineBuffer :=
  if input.length = 0 then ([], b)
  else
    let b1 := append b input
    if b1.rawOverflow then
      let d := drain (reset b1)
      (SerialEvent.diag serialOverflowMsg :: d.1, d.2)
    else drain b1

/-- Reference splitting of a byte sequence, structurally from the left:
the complete `'\n'`-terminated chunks in the order their bytes were
received, and the unterminated tail. -/
def splitAll : Str → List Str × Str
  | [] => ([], [])
  | c :: cs =>
    let r := splitAll cs
    if c = '\n' then ([] :: r.1, r.2)
    else
      match r.1 with
      | l :: ls => ((c :: l) :: ls, r.2)
      | [] => ([], c :: r.2)

/-- Reference extraction: the complete terminated lines of a byte
sequence (CR stripped), in the order their bytes were received. -/
def linesOf (s : Str) : List Str := (splitAll s).1.map stripCR

/-- The lines dispatched among a list of serial events, in order. -/
def dispatchedOf : List SerialEvent → List Str
  | [] => []
  | SerialEvent.dispatched l :: es => l :: dispatchedOf es
  | SerialEvent.diag _ :: es => dispatchedOf es

-- -----------------------------------------------------------------------------
-- Shared lemmas: the dns slot invariant
-- -----------------------------------------------------------------------------

/-- A single `DnsStep cb` step neither invokes callback `cb` nor stores
it in the slot, provided neither held before. -/
theorem dnsStep_preserves (cb : Nat) {s s' : DnsState} (hstep : DnsStep cb s s')
    (hi : wasInvoked cb s = false) (hh : holdsCallback cb s = false) :
    wasInvoked cb s' = false ∧ holdsCallback cb s' = false := by
  cases hstep with
  | stepStart h cb' r hne =>
    cases r with
    | ok addr =>
      refine ⟨?_, hh⟩
      simp only [wasInvoked, start, List.any_append, List.any_cons, List.any_nil,
        Bool.or_eq_false_iff] at hi ⊢
      exact ⟨hi, by simpa using hne, trivial⟩
    | inProgress =>
      refine ⟨hi, ?_⟩
      simp only [holdsCallback, start]
      simpa using hne
    | other => exact ⟨hi, hh⟩
  | stepCompletion name addr =>
    cases htask : s.task with
    | none => simpa [found_callback, htask] using ⟨hi, hh⟩
    | some t =>
      have hne : (t.callbackId == cb) = false := by
        simpa [holdsCallback, htask] using hh
      refine ⟨?_, ?_⟩
      · simp only [found_callback, htask, wasInvoked, List.any_append, List.any_cons,
          List.any_nil, Bool.or_eq_false_iff]
        exact ⟨by simpa [wasInvoked] using hi, hne, trivial⟩
      · simp [holdsCallback, found_callback, htask]

/-- If callback `cb` has not been invoked and is not stored, then it is
never invoked in any future. -/
theorem neverFires_of (cb : Nat) (s : DnsState)
    (hi : wasInvoked cb s = false) (hh : holdsCallback cb s = false) :
    neverFires cb s := by
  have key : ∀ s', ReachAvoiding cb s s' →
      wasInvoked cb s' = false ∧ holdsCallback cb s' = false := by
    intro s' hre
    induction hre with
    | refl => exact ⟨hi, hh⟩
    | tail _hab hbc ih => exact dnsStep_preserves cb hbc ih.1 ih.2
  intro s' hre
  exact (key s' hre).1

-- -----------------------------------------------------------------------------
-- Claim C1
-- -----------------------------------------------------------------------------

/-- Claim C1 is false on the code: with a task for callback 1 pending, a
second `start` that also gets `ERR_INPROGRESS` overwrites the slot with
the second task; the first caller's callback has not been invoked, the
second `start` reported nothing (`dns::start` has no error path and
writes no output), and callback 1 can never fire in any future of the
system. -/
theorem C1_second_start_discards :
    started pendingOne = true ∧
    pendingTwo.invoked = [] ∧
    pendingTwo.task = some ⟨"two.example".toList, 2⟩ ∧
    neverFires 1 pendingTwo :=
  ⟨by decide, by decide, by decide, neverFires_of 1 pendingTwo (by decide) (by decide)⟩

/-- Claim C1 (amended): if `start` is invoked while a task is pending and
the resolver reports in-progress, the pending task is silently replaced:
the slot now holds the second caller's task, no callback was invoked and
no error was reported during the second `start`, and the first caller's
callback is never invoked afterwards. -/
theorem C1_pending_overwrite (s : DnsState) (t : Task) (h2 : Str) (cb2 : Nat)
    (_hpend : s.task = some t)
    (hfresh : wasInvoked t.callbackId s = false)
    (hne : cb2 ≠ t.callbackId) :
    (start s h2 cb2 DnsResult.inProgress).task = some ⟨h2, cb2⟩ ∧
    (start s h2 cb2 DnsResult.inProgress).invoked = s.invoked ∧
    neverFires t.callbackId (start s h2 cb2 DnsResult.inProgress) := by
  refine ⟨rfl, rfl, neverFires_of _ _ hfresh ?_⟩
  simp only [holdsCallback, start]
  simpa using hne

/-- Spot check of `C1_pending_overwrite` on the two example tasks. -/
theorem C1_pending_overwrite_witness :
    (start pendingOne ("two.example".toList) 2 DnsResult.inProgress).task =
      some ⟨"two.example".toList, 2⟩ ∧
    (start pendingOne ("two.example".toList) 2 DnsResult.inProgress).invoked =
      pendingOne.invoked ∧
    neverFires 1 (start pendingOne ("two.example".toList) 2 DnsResult.inProgress) :=
  C1_pending_overwrite pendingOne ⟨"one.example".toList, 1⟩ ("two.example".toList) 2
    (by decide) (by decide) (by decide)

-- -----------------------------------------------------------------------------
-- Claim C2
-- -----------------------------------------------------------------------------

/-- Claim C2 is false on the code: the web-socket action handler passes a
non-empty command that lacks a terminator to the dispatcher unchanged
(no newline is appended). -/
theorem C2_web_no_terminator :
    webPrepare ("HELP".toList) = some ("HELP".toList) ∧
    endsWith ("HELP".toList) newline = false ∧
    endsWith ("HELP".toList) crlf = false ∧
    ("HELP".toList).length ≠ 0 := by
  refine ⟨by decide, by decide, by decide, by decide⟩

/-- Claim C2 (amended): given a non-empty command without a trailing
terminator, the MQTT handler and the HTTP API handler append a newline
before dispatching (so the dispatched string ends in a line terminator),
while the web-socket action handler passes the string unchanged. -/
theorem C2_terminator_adapters (cmd : Str) (h : cmd.length ≠ 0)
    (hn : endsWith cmd newline = false) (hc : endsWith cmd crlf = false) :
    mqttPrepare cmd = some (cmd ++ newline) ∧
    apiPrepare cmd = some (cmd ++ newline) ∧
    webPrepare cmd = some cmd ∧
    endsWith (cmd ++ newline) newline = true := by
  refine ⟨?_, ?_, ?_, ?_⟩
  · simp [mqttPrepare, withTerminator, h, hn, hc]
  · simp [apiPrepare, withTerminator, h, hn, hc]
  · simp [webPrepare, h]
  · simp only [endsWith, decide_eq_true_eq]
    exact List.suffix_append cmd newline

/-- Spot check of `C2_terminator_adapters` on the command `HELP`. -/
theorem C2_terminator_adapters_witness :
    mqttPrepare ("HELP".toList) = some ("HELP".toList ++ newline) ∧
    apiPrepare ("HELP".toList) = some ("HELP".toList ++ newline) ∧
    webPrepare ("HELP".toList) = some ("HELP".toList) ∧
    endsWith ("HELP".toList ++ newline) newline = true :=
  C2_terminator_adapters ("HELP".toList) (by decide) (by decide) (by decide)

-- -----------------------------------------------------------------------------
-- Claim C4
-- -----------------------------------------------------------------------------

/-- Claim C4: whenever HOST's argv does not have exactly two elements,
the handler writes the usage error and returns with the dns state (and
in particular the task slot) unchanged: no resolution is started. -/
theorem C4_host_usage (argv : List Str) (s : DnsState) (cb : Nat) (r : DnsResult)
    (reply : Option Nat) (hlen : argv.length ≠ 2) :
    hostRun argv s cb r reply = some (s, [OutEvent.err hostUsage]) := by
  simp [hostRun, hlen]

/-- Spot check of `C4_host_usage` on `HOST` with no argument. -/
theorem C4_host_usage_witness :
    hostRun [("HOST".toList)] ⟨none, []⟩ 0 DnsResult.inProgress none =
      some (⟨none, []⟩, [OutEvent.err hostUsage]) :=
  C4_host_usage [("HOST".toList)] ⟨none, []⟩ 0 DnsResult.inProgress none (by decide)

-- -----------------------------------------------------------------------------
-- Claim C5
-- -----------------------------------------------------------------------------

/-- Claim C5: when the resolver answers immediately (`ERR_OK`), the
callback fires synchronously within `start` with the resolved address,
and the state remains idle: `started()` is false after `start` returns. -/
theorem C5_sync_ok (s : DnsState) (h : Str) (cb : Nat) (addr : Nat)
    (hidle : s.task = none) :
    start s h cb (DnsResult.ok addr) =
      { task := none, invoked := s.invoked ++ [⟨cb, h, some addr⟩] } ∧
    started (start s h cb (DnsResult.ok addr)) = false := by
  obtain ⟨st, si⟩ := s
  simp only [DnsState.mk.injEq] at hidle
  subst hidle
  exact ⟨rfl, rfl⟩

/-- Spot check of `C5_sync_ok` from the empty state. -/
theorem C5_sync_ok_witness :
    start ⟨none, []⟩ ("one.example".toList) 5 (DnsResult.ok 16909060) =
      { task := none,
        invoked := ([] : List Invocation) ++ [⟨5, "one.example".toList, some 16909060⟩] } ∧
    started (start ⟨none, []⟩ ("one.example".toList) 5 (DnsResult.ok 16909060)) = false :=
  C5_sync_ok ⟨none, []⟩ ("one.example".toList) 5 16909060 rfl

-- -----------------------------------------------------------------------------
-- Claim C6
-- -----------------------------------------------------------------------------

/-- Claim C6: when the resolver's completion callback fires for a pending
task, the stored callback is invoked exactly once (one invocation is
appended to the log), the slot returns to idle, and a second firing of
the completion callback changes nothing: the caller callback is not
invoked again. -/
theorem C6_completion_once (s : DnsState) (t : Task) (name name2 : Str)
    (addr addr2 : Option Nat) (hpend : s.task = some t) :
    (found_callback s name addr).invoked = s.invoked ++ [⟨t.callbackId, name, addr⟩] ∧
    (found_callback s name addr).task = none ∧
    found_callback (found_callback s name addr) name2 addr2 = found_callback s name addr := by
  refine ⟨?_, ?_, ?_⟩
  · simp [found_callback, hpend]
  · simp [found_callback, hpend]
  · simp [found_callback, hpend]

/-- Spot check of `C6_completion_once` on a pending example task. -/
theorem C6_completion_once_witness :
    (found_callback pendingOne ("one.example".toList) (some 16909060)).invoked =
      pendingOne.invoked ++ [⟨1, "one.example".toList, some 16909060⟩] ∧
    (found_callback pendingOne ("one.example".toList) (some 16909060)).task = none ∧
    found_callback (found_callback pendingOne ("one.example".toList) (some 16909060))
        ("one.example".toList) none =
      found_callback pendingOne ("one.example".toList) (some 16909060) :=
  C6_completion_once pendingOne ⟨"one.example".toList, 1⟩ ("one.example".toList)
    ("one.example".toList) (some 16909060) none (by decide)

-- -----------------------------------------------------------------------------
-- Claim C10
-- -----------------------------------------------------------------------------

/-- Claim C10: an immediate resolver result that is neither `ERR_OK` nor
`ERR_INPROGRESS` destroys the task without invoking the callback (the
state is unchanged, so the invocation log is too), leaves `started()`
false, and the HOST command's wait loop exits at once without printing
any resolution result line. -/
theorem C10_error_result (s : DnsState) (c0 hn : Str) (cb : Nat) (reply : Option Nat)
    (hidle : s.task = none) :
    start s hn cb DnsResult.other = s ∧
    started (start s hn cb DnsResult.other) = false ∧
    hostRun [c0, hn] s cb DnsResult.other reply = some (s, []) := by
  refine ⟨rfl, ?_, ?_⟩
  · simp [started, start, hidle]
  · simp [hostRun, hidle]

/-- Spot check of `C10_error_result` from the empty state. -/
theorem C10_error_result_witness :
    start ⟨none, []⟩ ("bad name".toList) 3 DnsResult.other = ⟨none, []⟩ ∧
    started (start ⟨none, []⟩ ("bad name".toList) 3 DnsResult.other) = false ∧
    hostRun [("HOST".toList), ("bad name".toList)] ⟨none, []⟩ 3 DnsResult.other none =
      some (⟨none, []⟩, []) :=
  C10_error_result ⟨none, []⟩ ("HOST".toList) ("bad name".toList) 3 none rfl

-- -----------------------------------------------------------------------------
-- Claim C8
-- -----------------------------------------------------------------------------

/-- Claim C8 is false on the code as universally stated: a command whose
sink ends up empty (for example `NETSTAT` with all three TCP pcb lists
empty, which prints per-pcb lines only and no status marker) leads to no
publication at all, because of the `if (out.length())` guard. -/
theorem C8_empty_output_not_published :
    netstatOutput [] = [] ∧
    mqttHandle ("NETSTAT".toList) (fun _ => netstatOutput []) = none := by
  exact ⟨rfl, rfl⟩

/-- Claim C8 (amended): for a command executed via the MQTT transport,
the sink's final contents are published unmodified to the command topic
when they are non-empty; when the sink is empty nothing is published. -/
theorem C8_publish_iff_nonempty (payload : Str) (dispatch : Str → Str)
    (hp : payload.length ≠ 0) :
    (dispatch (withTerminator payload) ≠ [] →
      mqttHandle payload dispatch = some (cmdTopic, dispatch (withTerminator payload))) ∧
    (dispatch (withTerminator payload) = [] → mqttHandle payload dispatch = none) := by
  constructor <;> intro hout <;> simp [mqttHandle, hp, hout]

/-- Spot check of `C8_publish_iff_nonempty`: a command with non-empty
output gets its sink contents published to the command topic. -/
theorem C8_publish_iff_nonempty_witness :
    mqttHandle ("HELP".toList) (fun _ => "OK\n".toList) = some (cmdTopic, "OK\n".toList) :=
  (C8_publish_iff_nonempty ("HELP".toList) (fun _ => "OK\n".toList) (by decide)).1 (by decide)

-- -----------------------------------------------------------------------------
-- Shared lemmas: the help comparator versus case-insensitive order
-- -----------------------------------------------------------------------------

theorem lexLt_irrefl (a : Str) : lexLt a a = false := by
  induction a with
  | nil => rfl
  | cons c cs ih => simp [lexLt, ih]

theorem lexLt_asymm {a b : Str} (h : lexLt a b = true) : lexLt b a = false := by
  induction a generalizing b with
  | nil =>
    cases b with
    | nil => simp [lexLt] at h
    | cons d ds => rfl
  | cons c cs ih =>
    cases b with
    | nil => simp [lexLt] at h
    | cons d ds =>
      simp only [lexLt] at h ⊢
      rcases lt_trichotomy c d with hcd | hcd | hcd
      · rw [if_neg (lt_asymm hcd), if_neg (ne_of_gt hcd)]
      · subst hcd
        rw [if_neg (lt_irrefl c), if_pos rfl] at h ⊢
        exact ih h
      · rw [if_neg (lt_asymm hcd), if_neg (ne_of_gt hcd)] at h
        exact absurd h (by simp)

theorem lexLt_trans {a b c : Str} (h₁ : lexLt a b = true) (h₂ : lexLt b c = true) :
    lexLt a c = true := by
  induction a generalizing b c with
  | nil =>
    cases c with
    | nil =>
      cases b with
      | nil => simp [lexLt] at h₁
      | cons d ds => simp [lexLt] at h₂
    | cons e es => rfl
  | cons x xs ih =>
    cases b with
    | nil => simp [lexLt] at h₁
    | cons y ys =>
      cases c with
      | nil => simp [lexLt] at h₂
      | cons z zs =>
        simp only [lexLt] at h₁ h₂ ⊢
        rcases lt_trichotomy x y with hxy | hxy | hxy
        · rcases lt_trichotomy y z with hyz | hyz | hyz
          · rw [if_pos (lt_trans hxy hyz)]
          · subst hyz
            rw [if_pos hxy]
          · rw [if_neg (lt_asymm hyz), if_neg (ne_of_gt hyz)] at h₂
            exact absurd h₂ (by simp)
        · subst hxy
          rw [if_neg (lt_irrefl x), if_pos rfl] at h₁
          rcases lt_trichotomy x z with hxz | hxz | hxz
          · rw [if_pos hxz]
          · subst hxz
            rw [if_neg (lt_irrefl x), if_pos rfl] at h₂ ⊢
            exact ih h₁ h₂
          · rw [if_neg (lt_asymm hxz), if_neg (ne_of_gt hxz)] at h₂
            exact absurd h₂ (by simp)
        · rw [if_neg (lt_asymm hxy), if_neg (ne_of_gt hxy)] at h₁
          exact absurd h₁ (by simp)

theorem lexLt_connex {a b : Str} (h : lexLt a b = false) (h' : lexLt b a = false) :
    a = b := by
  induction a generalizing b with
  | nil =>
    cases b with
    | nil => rfl
    | cons d ds => simp [lexLt] at h
  | cons c cs ih =>
    cases b with
    | nil => simp [lexLt] at h'
    | cons d ds =>
      simp only [lexLt] at h h'
      rcases lt_trichotomy c d with hcd | hcd | hcd
      · rw [if_pos hcd] at h
        exact absurd h (by simp)
      · subst hcd
        rw [if_neg (lt_irrefl c), if_pos rfl] at h h'
        rw [ih h h']
      · rw [if_pos hcd] at h'
        exact absurd h' (by simp)

instance : IsTotal Str ciLe :=
  ⟨fun a b => by
    by_cases hlt : lexLt (lower b) (lower a) = true
    · exact Or.inr (by simp [ciLe, ciLt, lexLt_asymm hlt])
    · exact Or.inl hlt⟩

instance : IsTrans Str ciLe :=
  ⟨fun a b c hab hbc hca => by
    have h1 : lexLt (lower b) (lower a) = false := by
      cases hx : lexLt (lower b) (lower a) with
      | false => rfl
      | true => exact absurd hx hab
    have h2 : lexLt (lower c) (lower b) = false := by
      cases hx : lexLt (lower c) (lower b) with
      | false => rfl
      | true => exact absurd hx hbc
    have h3 : lexLt (lower c) (lower a) = true := hca
    cases hx : lexLt (lower a) (lower b) with
    | true => exact absurd (lexLt_trans h3 hx) (by simp [h2])
    | false =>
      have he : lower a = lower b := lexLt_connex hx h1
      rw [he] at h3
      exact absurd h3 (by simp [h2])⟩

theorem strncasecmp_self (a : Str) (n : Nat) : strncasecmp a a n = 0 := by
  induction a generalizing n with
  | nil => cases n <;> rfl
  | cons c cs ih =>
    cases n with
    | zero => rfl
    | succ m => simp [strncasecmp, ih]

/-- On a pair of names neither of whose lower-case images is a prefix of
the other's, the source comparator agrees with strict case-insensitive
lexicographic order: truncating the comparison to `lhs.length`
characters never matters because a differing position exists within both
names. -/
theorem helpLt_iff_ciLt (a b : Str)
    (hab : ¬ (lower a <+: lower b)) (hba : ¬ (lower b <+: lower a)) :
    (helpLt a b ↔ ciLt a b) := by
  induction a generalizing b with
  | nil => exact absurd ⟨lower b, rfl⟩ hab
  | cons c cs ih =>
    cases b with
    | nil => exact absurd ⟨lower (c :: cs), rfl⟩ hba
    | cons d ds =>
      have hl : lower (c :: cs) = lowerChar c :: lower cs := rfl
      have hl' : lower (d :: ds) = lowerChar d :: lower ds := rfl
      by_cases hcd : lowerChar c = lowerChar d
      · have hab' : ¬ (lower cs <+: lower ds) := fun hp =>
          hab (by rw [hl, hl', hcd]; exact (List.cons_prefix_cons).mpr ⟨rfl, hp⟩)
        have hba' : ¬ (lower ds <+: lower cs) := fun hp =>
          hba (by rw [hl, hl', hcd]; exact (List.cons_prefix_cons).mpr ⟨rfl, hp⟩)
        have e1 : strncasecmp (c :: cs) (d :: ds) ((c :: cs).length) =
            strncasecmp cs ds cs.length := by
          simp [strncasecmp, hcd]
        have e2 : lexLt (lower (c :: cs)) (lower (d :: ds)) = lexLt (lower cs) (lower ds) := by
          rw [hl, hl', hcd]
          simp [lexLt]
        unfold helpLt ciLt
        rw [e1, e2]
        exact ih ds hab' hba'
      · by_cases hlt : lowerChar c < lowerChar d
        · have e1 : strncasecmp (c :: cs) (d :: ds) ((c :: cs).length) = -1 := by
            simp [strncasecmp, hcd, hlt]
          have e2 : lexLt (lower (c :: cs)) (lower (d :: ds)) = true := by
            rw [hl, hl']
            simp [lexLt, hlt]
          unfold helpLt ciLt
          rw [e1, e2]
          norm_num
        · have e1 : strncasecmp (c :: cs) (d :: ds) ((c :: cs).length) = 1 := by
            simp [strncasecmp, hcd, hlt]
          have e2 : lexLt (lower (c :: cs)) (lower (d :: ds)) = false := by
            rw [hl, hl']
            simp [lexLt, hlt, hcd]
          unfold helpLt ciLt
          rw [e1, e2]
          norm_num

/-- The comparator-induced placement relation agrees with the
case-insensitive one on equal names or names without case-insensitive
prefix containment. -/
theorem helpLe_iff_ciLe_of {a b : Str} (h : a = b ∨ NoCiContainment a b) :
    (helpLe a b ↔ ciLe a b) := by
  cases h with
  | inl he =>
    subst he
    unfold helpLe ciLe helpLt ciLt
    simp [strncasecmp_self, lexLt_irrefl]
  | inr hnc => exact not_congr (helpLt_iff_ciLt b a hnc.2 hnc.1)

theorem noCiContainment_symm : Symmetric NoCiContainment :=
  fun _ _ h => ⟨h.2, h.1⟩

theorem orderedInsert_congr {α : Type} (r s : α → α → Prop)
    [DecidableRel r] [DecidableRel s] (x : α) (l : List α)
    (h : ∀ y ∈ l, (r x y ↔ s x y)) :
    List.orderedInsert r x l = List.orderedInsert s x l := by
  induction l with
  | nil => rfl
  | cons y ys ih =>
    simp only [List.orderedInsert]
    by_cases hr : r x y
    · rw [if_pos hr, if_pos ((h y (List.mem_cons_self y ys)).mp hr)]
    · rw [if_neg hr, if_neg (fun hs2 => hr ((h y (List.mem_cons_self y ys)).mpr hs2)),
        ih (fun z hz => h z (List.mem_cons_of_mem y hz))]

theorem insertionSort_congr {α : Type} (r s : α → α → Prop)
    [DecidableRel r] [DecidableRel s] (l : List α)
    (h : ∀ a ∈ l, ∀ b ∈ l, (r a b ↔ s a b)) :
    List.insertionSort r l = List.insertionSort s l := by
  induction l with
  | nil => rfl
  | cons x xs ih =>
    simp only [List.insertionSort]
    rw [ih (fun a ha b hb => h a (List.mem_cons_of_mem x ha) b (List.mem_cons_of_mem x hb))]
    exact orderedInsert_congr r s x (List.insertionSort s xs)
      (fun y hy => h x (List.mem_cons_self x xs) y
        (List.mem_cons_of_mem x ((List.perm_insertionSort s xs).mem_iff.mp hy)))

/-- On a registry without case-insensitive prefix containment, the sort
of `commands::help` coincides with a sort by the case-insensitive
lexicographic order. -/
theorem helpSort_eq_ciSort (names : List Str) (hpf : names.Pairwise NoCiContainment) :
    helpSort names = List.insertionSort ciLe names := by
  unfold helpSort
  apply insertionSort_congr
  intro a ha b hb
  apply helpLe_iff_ciLe_of
  by_cases hab : a = b
  · exact Or.inl hab
  · exact Or.inr (hpf.forall noCiContainment_symm ha hb hab)

-- -----------------------------------------------------------------------------
-- Claim C3
-- -----------------------------------------------------------------------------

/-- Claim C3 is false on the code for general registry contents: the
comparator truncates the case-insensitive comparison to the length of
its left argument, so a name that is a case-insensitive strict prefix of
another compares as equivalent in both directions.  For the registry
`{"ABC", "AB"}` the help output prints `ABC` before `AB`, which is not
case-insensitive lexicographic order. -/
theorem C3_prefix_pair_unsorted :
    helpSort [("ABC".toList), ("AB".toList)] = [("ABC".toList), ("AB".toList)] ∧
    ¬ (helpSort [("ABC".toList), ("AB".toList)]).Pairwise ciLe ∧
    help [("ABC".toList), ("AB".toList)] =
      [OutEvent.text helpHeader, helpLine ("ABC".toList), helpLine ("AB".toList),
        OutEvent.ok] := by
  refine ⟨by decide, by decide, by decide⟩

/-- Claim C3 (amended): for every registry in which no name's lower-case
image is a prefix of another name's (true in particular of the spec's
example `{"Reset","Adc","Info"}`), the help command writes all
registered names, sorted in case-insensitive lexicographic order,
between the header line and the OK marker.  A registry containing a
case-insensitive strict prefix pair may be printed out of that order. -/
theorem C3_help_sorted (names : List Str) (hpf : names.Pairwise NoCiContainment) :
    (helpSort names).Pairwise ciLe ∧
    (helpSort names).Perm names ∧
    help names = OutEvent.text helpHeader :: (helpSort names).map helpLine ++ [OutEvent.ok] := by
  refine ⟨?_, List.perm_insertionSort helpLe names, rfl⟩
  rw [helpSort_eq_ciSort names hpf]
  exact List.sorted_insertionSort ciLe names

-- -----------------------------------------------------------------------------
-- Shared lemmas: the serial drain loop
-- -----------------------------------------------------------------------------

theorem splitFirstLine_rest_lt {s ln rest : Str} (h : splitFirstLine s = some (ln, rest)) :
    rest.length < s.length := by
  simp only [splitFirstLine] at h
  by_cases hi : s.findIdx (fun c => decide (c = '\n')) < s.length
  · rw [if_pos hi] at h
    simp only [Option.some.injEq, Prod.mk.injEq] at h
    obtain ⟨h1, h2⟩ := h
    subst h2
    simp only [List.length_drop]
    omega
  · rw [if_neg hi] at h
    exact absurd h (by simp)

theorem line_split_some {b : LineBuffer} {p : Str × Str}
    (h : splitFirstLine b.pending = some p) :
    line b = (⟨stripCR p.1, false⟩, { b with pending := p.2 }) := by
  simp [line, h]

theorem line_split_none_over {b : LineBuffer} (h : splitFirstLine b.pending = none)
    (hb : b.lineBound < b.pending.length) :
    line b = (⟨[], true⟩, { b with pending := [] }) := by
  simp [line, h, hb]

theorem line_split_none_small {b : LineBuffer} (h : splitFirstLine b.pending = none)
    (hb : ¬ b.lineBound < b.pending.length) :
    line b = (⟨[], false⟩, b) := by
  simp [line, h, hb]

theorem line_empty {b : LineBuffer} (h : b.pending = []) : line b = (⟨[], false⟩, b) := by
  have hsp : splitFirstLine b.pending = none := by
    rw [h]
    rfl
  exact line_split_none_small hsp (by rw [h]; simp)

theorem drain_overflow_eq (b : LineBuffer) (hov : (line b).1.overflow = true) :
    drain b = (SerialEvent.diag cmdOverflowMsg :: (drain (line b).2).1,
      (drain (line b).2).2) := by
  rw [drain]
  simp [hov]

theorem drain_stop_eq (b : LineBuffer) (hov : (line b).1.overflow = false)
    (hln : (line b).1.line = []) : drain b = ([], (line b).2) := by
  rw [drain]
  simp [hov, hln]

theorem drain_dispatch_eq (b : LineBuffer) (hov : (line b).1.overflow = false)
    (hln : (line b).1.line ≠ []) :
    drain b = (SerialEvent.dispatched (line b).1.line :: (drain (line b).2).1,
      (drain (line b).2).2) := by
  rw [drain]
  simp [hov, hln]

theorem drain_pending_nil {b : LineBuffer} (h : b.pending = []) : drain b = ([], b) := by
  have hl := line_empty h
  have hs := drain_stop_eq b (by rw [hl]) (by rw [hl])
  rw [hl] at hs
  exact hs

theorem splitFirstLine_cons_nl (cs : Str) : splitFirstLine ('\n' :: cs) = some ([], cs) := by
  simp [splitFirstLine, List.findIdx_cons]

theorem splitFirstLine_cons_ne {c : Char} (cs : Str) (hc : ¬ c = '\n') :
    splitFirstLine (c :: cs) = Option.map (fun p => (c :: p.1, p.2)) (splitFirstLine cs) := by
  have hfi : List.findIdx (fun x => decide (x = '\n')) (c :: cs) =
      List.findIdx (fun x => decide (x = '\n')) cs + 1 := by
    rw [List.findIdx_cons]
    simp [hc]
  simp only [splitFirstLine, hfi, List.length_cons]
  by_cases hi : List.findIdx (fun x => decide (x = '\n')) cs < cs.length
  · have hi2 : List.findIdx (fun x => decide (x = '\n')) cs + 1 < cs.length + 1 := by omega
    rw [if_pos hi2, if_pos hi]
    simp [List.take_succ_cons, List.drop_succ_cons]
  · have hi2 : ¬ List.findIdx (fun x => decide (x = '\n')) cs + 1 < cs.length + 1 := by omega
    rw [if_neg hi2, if_neg hi]
    rfl

theorem splitAll_split_none {s : Str} (h : splitFirstLine s = none) :
    (splitAll s).1 = [] := by
  induction s with
  | nil => rfl
  | cons c cs ih =>
    by_cases hc : c = '\n'
    · subst hc
      rw [splitFirstLine_cons_nl] at h
      exact absurd h (by simp)
    · rw [splitFirstLine_cons_ne cs hc] at h
      have h' : splitFirstLine cs = none := by
        cases hcs : splitFirstLine cs with
        | none => rfl
        | some p =>
          rw [hcs] at h
          simp [Option.map] at h
      have hnil := ih h'
      simp only [splitAll]
      rw [if_neg hc, hnil]

theorem splitAll_split_some {s ln rest : Str} (h : splitFirstLine s = some (ln, rest)) :
    (splitAll s).1 = ln :: (splitAll rest).1 := by
  induction s generalizing ln rest with
  | nil => simp [splitFirstLine] at h
  | cons c cs ih =>
    by_cases hc : c = '\n'
    · subst hc
      rw [splitFirstLine_cons_nl] at h
      simp only [Option.some.injEq, Prod.mk.injEq] at h
      obtain ⟨h1, h2⟩ := h
      subst h1
      subst h2
      simp [splitAll]
    · rw [splitFirstLine_cons_ne cs hc] at h
      cases hcs : splitFirstLine cs with
      | none =>
        rw [hcs] at h
        simp [Option.map] at h
      | some p =>
        obtain ⟨l1, r1⟩ := p
        rw [hcs] at h
        simp only [Option.map, Option.some.injEq, Prod.mk.injEq] at h
        obtain ⟨h1, h2⟩ := h
        subst h1
        subst h2
        have hrec := ih hcs
        simp only [splitAll]
        rw [if_neg hc, hrec]

/-- Dispatch order of one drain call: the dispatched lines are exactly
the complete lines of the buffered bytes, in the order received, up to
the first empty line (where the drain loop stops). -/
theorem drain_order_aux (n : Nat) :
    ∀ b : LineBuffer, b.pending.length ≤ n →
      dispatchedOf (drain b).1 = (linesOf b.pending).takeWhile (fun l => !l.isEmpty) := by
  induction n with
  | zero =>
    intro b hb
    have hnil : b.pending = [] := by
      cases hp : b.pending with
      | nil => rfl
      | cons c cs =>
        rw [hp] at hb
        simp at hb
    rw [drain_pending_nil hnil, hnil]
    rfl
  | succ n ih =>
    intro b hb
    cases hsp : splitFirstLine b.pending with
    | none =>
      have hlines : linesOf b.pending = [] := by
        unfold linesOf
        rw [splitAll_split_none hsp]
        rfl
      by_cases hband : b.lineBound < b.pending.length
      · have hl := line_split_none_over hsp hband
        have hov : (line b).1.overflow = true := by rw [hl]
        have hp2 : (line b).2.pending = [] := by rw [hl]
        rw [drain_overflow_eq b hov, hlines]
        simp [dispatchedOf, drain_pending_nil hp2]
      · have hl := line_split_none_small hsp hband
        have hov : (line b).1.overflow = false := by rw [hl]
        have hln : (line b).1.line = [] := by rw [hl]
        rw [drain_stop_eq b hov hln, hlines]
        rfl
    | some p =>
      obtain ⟨ln, rest⟩ := p
      have hl := line_split_some hsp
      have hov : (line b).1.overflow = false := by rw [hl]
      have hlines : linesOf b.pending = stripCR ln :: linesOf rest := by
        unfold linesOf
        rw [splitAll_split_some hsp]
        rfl
      by_cases hemp : stripCR ln = []
      · have hln : (line b).1.line = [] := by
          rw [hl]
          exact hemp
        rw [drain_stop_eq b hov hln, hlines]
        simp [dispatchedOf, List.takeWhile_cons, hemp]
      · have hln : (line b).1.line ≠ [] := by
          rw [hl]
          exact hemp
        have hrl := splitFirstLine_rest_lt hsp
        have h2 : (line b).2.pending = rest := by rw [hl]
        have hrest : (line b).2.pending.length ≤ n := by
          rw [h2]
          omega
        have hrec := ih (line b).2 hrest
        rw [drain_dispatch_eq b hov hln]
        simp only [dispatchedOf]
        rw [hrec, h2, hlines]
        have hle : (line b).1.line = stripCR ln := by rw [hl]
        rw [hle]
        obtain ⟨x, xs, hxx⟩ := List.exists_cons_of_ne_nil hemp
        rw [hxx]
        simp [List.takeWhile_cons]

/-- Dispatch order of one drain call, stated for every buffer. -/
theorem drain_order (b : LineBuffer) :
    dispatchedOf (drain b).1 = (linesOf b.pending).takeWhile (fun l => !l.isEmpty) :=
  drain_order_aux b.pending.length b le_rfl

-- -----------------------------------------------------------------------------
-- Claim C7
-- -----------------------------------------------------------------------------

/-- Claim C7: when line extraction reports a logical line-length
overflow, the drain loop emits the `Command line buffer overflow`
diagnostic (distinct from the raw `Serial buffer overflow` diagnostic)
and continues draining; and, for every buffer, the complete lines the
drain extracts are dispatched in the order their bytes were received
(up to the empty line at which the loop stops). -/
theorem C7_line_overflow_continues (b b2 : LineBuffer)
    (hov : (line b).1.overflow = true) :
    drain b = (SerialEvent.diag cmdOverflowMsg :: (drain (line b).2).1,
      (drain (line b).2).2) ∧
    cmdOverflowMsg ≠ serialOverflowMsg ∧
    dispatchedOf (drain b2).1 = (linesOf b2.pending).takeWhile (fun l => !l.isEmpty) :=
  ⟨drain_overflow_eq b hov, by decide, drain_order b2⟩

/-- Spot check of `C7_line_overflow_continues`: an unterminated pending
sequence longer than the line bound overflows, and a buffer holding two
complete lines dispatches them in order. -/
theorem C7_line_overflow_continues_witness :
    drain ⟨64, 3, "abcde".toList, false⟩ =
      (SerialEvent.diag cmdOverflowMsg ::
        (drain (line ⟨64, 3, "abcde".toList, false⟩).2).1,
        (drain (line ⟨64, 3, "abcde".toList, false⟩).2).2) ∧
    cmdOverflowMsg ≠ serialOverflowMsg ∧
    dispatchedOf (drain ⟨64, 16, "first\r\nsecond\nrest".toList, false⟩).1 =
      (linesOf ("first\r\nsecond\nrest".toList)).takeWhile (fun l => !l.isEmpty) :=
  C7_line_overflow_continues ⟨64, 3, "abcde".toList, false⟩
    ⟨64, 16, "first\r\nsecond\nrest".toList, false⟩ (by decide)

-- -----------------------------------------------------------------------------
-- Claim C9
-- -----------------------------------------------------------------------------

/-- Claim C9: when the raw byte-capacity overflow is detected, the whole
buffer is reset before any line extraction, so one loop call emits only
the raw diagnostic and dispatches nothing: every pending byte, complete
terminated lines included, is discarded and never reaches the
dispatcher. -/
theorem C9_raw_overflow_discards (b : LineBuffer) (input : Str)
    (hin : input.length ≠ 0)
    (hov : (append b input).rawOverflow = true) :
    serialLoop b input = ([SerialEvent.diag serialOverflowMsg], reset (append b input)) ∧
    (reset (append b input)).pending = [] := by
  refine ⟨?_, rfl⟩
  have hdr : drain (reset (append b input)) = ([], reset (append b input)) :=
    drain_pending_nil rfl
  simp [serialLoop, hin, hov, hdr]

/-- Spot check of `C9_raw_overflow_discards`: a buffer that already holds
the complete line `ok` overflows on three more bytes; the complete line
is discarded, not dispatched. -/
theorem C9_raw_overflow_discards_witness :
    linesOf ("ok\n".toList) = [("ok".toList)] ∧
    (serialLoop ⟨4, 16, "ok\n".toList, false⟩ ("xy".toList) =
        ([SerialEvent.diag serialOverflowMsg],
          reset (append ⟨4, 16, "ok\n".toList, false⟩ ("xy".toList))) ∧
      (reset (append ⟨4, 16, "ok\n".toList, false⟩ ("xy".toList))).pending = []) :=
  ⟨by decide,
    C9_raw_overflow_discards ⟨4, 16, "ok\n".toList, false⟩ ("xy".toList)
      (by decide) (by decide)⟩

/-- Spot check of `C3_help_sorted` on the spec's example registry
`{"Reset","Adc","Info"}`. -/
theorem C3_help_sorted_witness :
    (helpSort [("Reset".toList), ("Adc".toList), ("Info".toList)]).Pairwise ciLe ∧
    (helpSort [("Reset".toList), ("Adc".toList), ("Info".toList)]).Perm
      [("Reset".toList), ("Adc".toList), ("Info".toList)] ∧
    help [("Reset".toList), ("Adc".toList), ("Info".toList)] =
      OutEvent.text helpHeader ::
        (helpSort [("Reset".toList), ("Adc".toList), ("Info".toList)]).map helpLine ++
        [OutEvent.ok] :=
  C3_help_sorted [("Reset".toList), ("Adc".toList), ("Info".toList)] (by decide)

end Terminal
